import Mathlib

/-!
Verification of the `gop` library (extended Gorgonia operators and a batched
normal distribution) against its natural-language specification.

The development shallowly embeds the relevant Go code:

* tensors become `Tensor` (a shape vector of naturals plus a flat row-major
  data buffer of rationals; Go float64 arithmetic is idealized as exact
  arithmetic over `ℚ`, and the real-valued entropy formula over `ℝ`);
* fallible Go functions returning `(value, error)` become
  `Except String value`;
* host-engine primitives of `gorgonia.org/tensor` (slicing, axis sums,
  stacking) are given their documented row-major semantics;
* Go's in-place mutation of shape slices is made explicit where a claim is
  about mutation (`repeatOpInferShape` returns both the result and the value
  held by the caller's slice after the call).
-/

deriving instance DecidableEq for Except

namespace Gop

/-- Element types carried by graph nodes (gorgonia `tensor.Dtype`,
restricted to the types the distribution package distinguishes). -/
inductive Dtype where
  | float64
  | float32
  | int
deriving DecidableEq, Repr

/-- `true` exactly for the floating-point element types.  Used to state the
spec's "must be floating-point (float32 or float64)" precondition. -/
def Dtype.isFloat : Dtype → Bool
  | .float64 => true
  | .float32 => true
  | .int => false

/-- Shape and dtype of a graph node, the only node attributes the
`NewNormal` validation logic reads. -/
structure NodeMeta where
  shape : List Nat
  dtype : Dtype
deriving DecidableEq, Repr

/-- A tensor value: shape vector plus flat row-major data buffer
(spec section 3, `TensorValue`).  Elements are rationals (exact model of
the float64 values the code computes with). -/
structure Tensor where
  shape : List Nat
  data : List ℚ
deriving DecidableEq, Repr

instance : Inhabited Tensor := ⟨⟨[], []⟩⟩

/-- Number of dimensions (`tensor.Shape.Dims` / `Node.Dims`). -/
def Tensor.dims (t : Tensor) : Nat := t.shape.length

/-- Total number of elements (`tensor.Tensor.Size`): product of the shape. -/
def Tensor.size (t : Tensor) : Nat := t.shape.prod

/-- Well-formedness: the flat buffer has exactly as many elements as the
shape declares. -/
def Tensor.wf (t : Tensor) : Prop := t.data.length = t.shape.prod

instance (t : Tensor) : Decidable t.wf := by unfold Tensor.wf; infer_instance

/-! ## Normal distribution: shape resolution (src/distribution/normal.go)

`Normal` stores `mean` and `stddev` nodes of identical shape (the declared
shape).  `NewNormal` reshapes a scalar mean/stddev to shape `[1]`, so the
stored mean shape is always non-empty. -/

/-- `Normal.isBatch` (src/distribution/normal.go): `x` is a batch iff its
shape differs from the declared (mean) shape. -/
def isBatch (meanShape xShape : List Nat) : Bool :=
  !(xShape = meanShape : Bool)

/-- `Normal.fixShape` (src/distribution/normal.go).  Returns the shape the
query node is given before being used (reshapes are shape-only operations),
or the error the Go code returns.  Branches are in source order. -/
def fixShape (meanShape xShape : List Nat) : Except String (List Nat) :=
  -- x.IsScalar() && n.mean.Shape()[0] == 1
  if xShape.length = 0 ∧ meanShape.getD 0 0 = 1 then
    .ok [1]
  -- len(x.Shape()) == 1 && n.mean.Shape()[0] == 1: batch of scalars
  else if xShape.length = 1 ∧ meanShape.getD 0 0 = 1 then
    .ok [xShape.getD 0 0, 1]
  -- n.isBatch(x) && !tensor.Shape(x.Shape()[1:]).Eq(n.Shape())
  else if isBatch meanShape xShape ∧ ¬(xShape.drop 1 = meanShape) then
    .error ("expected shape to match distribution shape " ++
      toString meanShape ++
      " at all dimensions except batch (dim 0) but got x shape " ++
      toString xShape)
  -- !n.isBatch(x) && !n.Shape().Eq(x.Shape()): dead in the source, kept
  else if ¬isBatch meanShape xShape ∧ ¬(meanShape = xShape) then
    .error ("expected shape to match distribution shape " ++
      toString meanShape ++ " but got " ++ toString xShape)
  else
    .ok xShape

/-! ## NewNormal validation (src/distribution/normal.go) -/

/-- `NewNormal` (src/distribution/normal.go): validates the mean/stddev
nodes and returns the node metadata the `Normal` struct stores (after the
scalar-to-`[1]` reshape), or the validation error.  The graph-side
`G.Reshape`/`G.Read` calls are shape-level operations modelled by the
returned metadata. -/
def NewNormal (mean stddev : NodeMeta) (seed : Nat) :
    Except String (NodeMeta × NodeMeta × Nat) :=
  if ¬(mean.shape = stddev.shape) then
    .error ("newNormal: expected mean and stddev to have the same shape " ++
      "but got " ++ toString mean.shape ++ " and " ++ toString stddev.shape)
  else if ¬(mean.dtype = stddev.dtype) then
    .error ("newNormal: expected mean and stddev to have the same data " ++
      "type but got " ++ (repr mean.dtype).pretty ++ " and " ++
      (repr stddev.dtype).pretty)
  else if ¬(mean.dtype = Dtype.float64) then
    .error ("newNormal: data type " ++ (repr mean.dtype).pretty ++
      " unsupported")
  else if mean.shape.length = 0 then
    .ok (⟨[1], mean.dtype⟩, ⟨[1], stddev.dtype⟩, seed)
  else
    .ok (mean, stddev, seed)

/-! ## Clamp operator identity hash (src/op_clamp.go) -/

/-- `clampOp` (src/op_clamp.go): the clamp operator's parameters. -/
structure clampOp where
  min : ℚ
  max : ℚ
  passGradient : Bool
deriving DecidableEq, Repr

/-- `clampOp.String` (src/op_clamp.go): returns the constant "Clamp() "
regardless of the receiver's parameters. -/
def clampOp.toStr (_ : clampOp) : String := "Clamp() "

/-- `clampOp.WriteHash` (src/op_clamp.go) writes `c.String()` to the FNV
hash; the bytes written are therefore exactly the operator's `String`.
Two operators receive the same `Hashcode` iff they write the same bytes. -/
def clampOp.writeHashInput (c : clampOp) : String := c.toStr

/-! ## Repeat operator shape inference (src/op_repeat.go) -/

/-- `repeatOp.InferShape` (src/op_repeat.go): clones the input shape and
multiplies the extent at `axis` by `repeats`.  The first component is the
returned shape; the second is the value held by the caller's shape slice
after the call (the source calls `Clone()` before mutating, so the caller's
slice is untouched). -/
def repeatOpInferShape (axis repeats : Nat) (s : List Nat) :
    List Nat × List Nat :=
  let shape := s.set axis (s.getD axis 0 * repeats)
  (shape, s)

/-! ## Shape algebra and host-engine tensor primitives

`Squeeze`, `SqueezeAllBut` (src/op.go) operate on graph nodes through
`G.Reshape`, which changes only the shape, never the row-major data.
Slicing, axis summation and stacking are primitives of the host engine
(`gorgonia.org/tensor`), modelled with their documented row-major
semantics (spec sections 3 and 6). -/

/-- `Squeeze` (src/op.go): remove `axis` if its extent is 1, otherwise a
no-op.  The underlying `G.Reshape` keeps the data. -/
def squeeze (x : Tensor) (axis : Nat) : Tensor :=
  if x.shape.getD axis 0 ≠ 1 then x
  else ⟨x.shape.take axis ++ x.shape.drop (axis + 1), x.data⟩

/-- Loop body of `SqueezeAllBut` (src/op.go).  State: current tensor, the
(decremented) `axis`, and the scan index `dimToSqueeze`; the Go loop's
break condition `dimToSqueeze >= x.Dims()` is checked after each body, as
in the source.  Each body step decreases `x.dims - dim` by exactly one, so
`x.dims` fuel steps always suffice; the fuel only serves Lean's
termination checker and is never exhausted before the loop's own break. -/
def sabLoop : Nat → Tensor → Nat → Nat → Tensor
  | 0, x, _, _ => x
  | fuel + 1, x, axis, dim =>
    if x.shape.getD dim 0 = 1 ∧ dim ≠ axis then
      let x' := squeeze x dim
      let axis' := if dim < axis then axis - 1 else axis
      if x'.dims ≤ dim then x' else sabLoop fuel x' axis' dim
    else
      if x.dims ≤ dim + 1 then x else sabLoop fuel x axis (dim + 1)

/-- `SqueezeAllBut` (src/op.go): squeeze every extent-1 axis except
`axis`. -/
def SqueezeAllBut (x : Tensor) (axis : Nat) : Tensor :=
  sabLoop x.dims x axis 0

/-- Modelled from the spec: `countOnesBefore` is called by `ReduceAlong`
(src/op.go line 209) but its definition is not part of the provided
sources; the spec (section 4.1) specifies it as the number of size-1 axes
strictly before `axis`. -/
def countOnesBefore (s : List Nat) (axis : Nat) : Nat :=
  ((s.take axis).filter (fun d => d == 1)).length

/-- Number of row-major blocks before the axis: product of the extents
strictly before `a`. -/
def outerProd (s : List Nat) (a : Nat) : Nat := (s.take a).prod

/-- Row-major stride of the axis: product of the extents strictly after
`a`. -/
def innerProd (s : List Nat) (a : Nat) : Nat := (s.drop (a + 1)).prod

/-- Data of the width-1 slice of `x` at index `i` along axis `a`
(host-engine `G.Slice` with `G.S(i, i+1, 1)` at `a` and full ranges
elsewhere): the row-major gather of all elements whose coordinate along
`a` equals `i`. -/
def sliceData (x : Tensor) (a i : Nat) : List ℚ :=
  (List.range (outerProd x.shape a * innerProd x.shape a)).map fun j =>
    x.data.getD
      ((j / innerProd x.shape a * x.shape.getD a 0 + i) *
          innerProd x.shape a + j % innerProd x.shape a) 0

/-- The width-1 slice as a tensor; gorgonia's slicing collapses the
width-1 sliced axis. -/
def sliceIdx (x : Tensor) (a i : Nat) : Tensor :=
  ⟨x.shape.eraseIdx a, sliceData x a i⟩

/-- The width-`stop - start` slice of `x` along axis `a` (host-engine
`grad.Slice` with `G.S(start, stop)` at `a` and full ranges elsewhere):
shape keeps the axis with the slice width, data is the row-major gather
of the elements whose coordinate along `a` lies in `[start, stop)`. -/
def sliceRange (x : Tensor) (a start stop : Nat) : Tensor :=
  ⟨x.shape.set a (stop - start),
   (List.range
       (outerProd x.shape a * (stop - start) * innerProd x.shape a)).map
     fun j =>
       x.data.getD
         ((j / ((stop - start) * innerProd x.shape a) * x.shape.getD a 0 +
             start + j % ((stop - start) * innerProd x.shape a) /
               innerProd x.shape a) * innerProd x.shape a +
           j % innerProd x.shape a) 0⟩

/-- Host-engine `tensor.Dense.Sum(axis)`: sums along `a` and removes that
axis. -/
def sumAlong (x : Tensor) (a : Nat) : Tensor :=
  ⟨x.shape.eraseIdx a,
   (List.range (outerProd x.shape a * innerProd x.shape a)).map fun j =>
     ∑ m ∈ Finset.range (x.shape.getD a 0),
       x.data.getD
         ((j / innerProd x.shape a * x.shape.getD a 0 + m) *
             innerProd x.shape a + j % innerProd x.shape a) 0⟩

/-- Host-engine `tensor.Dense.Stack(axis, others...)`: stacks
`head :: rest` (all of one shape) along a new axis inserted at position
`a`. -/
def stack (a : Nat) (head : Tensor) (rest : List Tensor) : Tensor :=
  let k := 1 + rest.length
  let outer := (head.shape.take a).prod
  let inner := (head.shape.drop a).prod
  ⟨head.shape.insertIdx a k,
   (List.range (outer * k * inner)).map fun j =>
     ((head :: rest).getD (j % (k * inner) / inner) head).data.getD
       (j / (k * inner) * inner + j % inner) 0⟩

/-- Host-engine `G.Reshape`: succeeds iff the element counts agree; data
unchanged. -/
def reshape (x : Tensor) (s : List Nat) : Except String Tensor :=
  if x.shape.prod = s.prod then .ok ⟨s, x.data⟩
  else .error "reshape: size mismatch"

/-- Host-engine elementwise arithmetic (`G.Add`, `G.Sub`,
`G.HadamardProd`, `G.HadamardDiv`) on same-shaped operands: zip the data
buffers with `g`.  `ReduceAlong` only ever combines same-shaped slices, so
no broadcasting is exercised. -/
def elemwise (g : ℚ → ℚ → ℚ) (a b : Tensor) : Except String Tensor :=
  if a.shape = b.shape then .ok ⟨a.shape, List.zipWith g a.data b.data⟩
  else .error "elemwise: shape mismatch"

/-! ## ReduceAlong (src/op.go) -/

/-- The `for i := 1; i < length; i++` accumulation loop of `ReduceAlong`
(src/op.go): `k` is the number of remaining iterations (`length - i`),
`row` the running accumulator, `i` the next row index. -/
def reduceRows (f : Tensor → Tensor → Except String Tensor) (x : Tensor)
    (axis : Nat) : Nat → Tensor → Nat → Except String Tensor
  | 0, row, _ => .ok row
  | k + 1, row, i =>
    match f row (sliceIdx x axis i) with
    | .error e =>
        .error ("reduceAlong: could not compute f along rows: " ++ e)
    | .ok row2 => reduceRows f x axis k row2 (i + 1)

/-- `ReduceAlong` (src/op.go): iteratively applies `f` to the running row
and the next slice along `axis`.  Mirrors the source branch for branch:
axis bound check, scalar early return (unreachable for a natural-number
axis, kept from the source), the keepdims target-shape capture and
extent-1 shortcut, `SqueezeAllBut` with the `countOnesBefore` axis
renumbering, the extent-1 squeeze, the accumulation loop, and the final
keepdims reshape. -/
def ReduceAlong (x : Tensor) (axis : Nat) (keepdims : Bool)
    (f : Tensor → Tensor → Except String Tensor) : Except String Tensor :=
  if x.dims ≤ axis then
    .error ("reduceAlong: axis out of range [" ++ toString axis ++
      "] with length " ++ toString x.dims)
  else if x.dims = 0 then
    .ok x
  else
    let origShape := x.shape.take axis ++
      (if axis ≠ x.dims - 1 then x.shape.drop (axis + 1) else [])
    if keepdims ∧ x.shape.getD axis 0 = 1 then
      .ok (squeeze x axis)
    else
      let newAxis := axis - countOnesBefore x.shape axis
      let xs := SqueezeAllBut x axis
      let len := xs.shape.getD newAxis 0
      if len = 1 then
        .ok (squeeze xs newAxis)
      else
        match reduceRows f xs newAxis (len - 1) (sliceIdx xs newAxis 0) 1 with
        | .error e => .error e
        | .ok row =>
            if keepdims then
              match reshape row origShape with
              | .error e =>
                  .error ("reduceAlong: could not reshape back to " ++
                    "original dims: " ++ e)
              | .ok out => .ok out
            else
              .ok row

/-- `ReduceAdd` (src/op.go). -/
def ReduceAdd (x : Tensor) (axis : Nat) (keepdims : Bool) :
    Except String Tensor :=
  ReduceAlong x axis keepdims (elemwise (· + ·))

/-- `ReduceSub` (src/op.go). -/
def ReduceSub (x : Tensor) (axis : Nat) (keepdims : Bool) :
    Except String Tensor :=
  ReduceAlong x axis keepdims (elemwise (· - ·))

/-- `ReduceProd` (src/op.go). -/
def ReduceProd (x : Tensor) (axis : Nat) (keepdims : Bool) :
    Except String Tensor :=
  ReduceAlong x axis keepdims (elemwise (· * ·))

/-- `ReduceDiv` (src/op.go). -/
def ReduceDiv (x : Tensor) (axis : Nat) (keepdims : Bool) :
    Except String Tensor :=
  ReduceAlong x axis keepdims (elemwise (· / ·))

/-! ## Repeat gradient operator (src/op_repeat.go) -/

/-- `repeatDiffOp.InferShape` (src/op_repeat.go): clone the (upstream
gradient) shape and divide the extent at `axis` by `repeats`. -/
def repeatDiffInferShape (axis repeats : Nat) (s : List Nat) : List Nat :=
  s.set axis (s.getD axis 0 / repeats)

/-- `repeatDiffOp.Do` (src/op_repeat.go): `inputs[0]` is the primal input
(never read), `inputs[1]` the upstream gradient.  After the input checks:
infer the output shape; for `repeats == 1` return a clone of the gradient;
otherwise slice the gradient along `axis` into consecutive blocks
`[i*repeats, (i+1)*repeats)`, sum each block along `axis` (every block has
more than one element since `repeats ≥ 2` and the gradient is non-empty),
and stack the summed rows back along `axis` when the output extent there
exceeds 1, else return the single summed row directly.

`repeatDiffRows` is the `outRows` slice built by the source's `for` loop:
one entry per output index `i < shape[axis]`, each the block
`grad[..., i*repeats : (i+1)*repeats, ...]` summed along `axis` when it
has more than one element (always, since `repeats ≥ 2` on this path). -/
def repeatDiffRows (axis repeats : Nat) (grad : Tensor) : List Tensor :=
  (List.range
      ((repeatDiffInferShape axis repeats grad.shape).getD axis 0)).map
    fun i =>
      if 1 < (sliceRange grad axis (i * repeats)
          (i * repeats + repeats)).size then
        sumAlong (sliceRange grad axis (i * repeats)
          (i * repeats + repeats)) axis
      else
        sliceRange grad axis (i * repeats) (i * repeats + repeats)

/-- The `Do` entry point of `repeatDiffOp` (src/op_repeat.go lines
262-306); see `repeatDiffRows` for the block loop. -/
def repeatDiffDo (axis repeats : Nat) (x grad : Tensor) :
    Except String Tensor :=
  if grad.size = 0 then .error "do: cannot diff repeat empty tensor"
  else if grad.dims ≤ axis then
    .error ("do: axis [" ++ toString axis ++ "] out of range for " ++
      "tensor with shape " ++ toString grad.shape)
  else if repeats = 1 then .ok grad
  else if 1 < (repeatDiffInferShape axis repeats grad.shape).getD axis 0 then
    .ok (stack axis ((repeatDiffRows axis repeats grad).getD 0 default)
      ((repeatDiffRows axis repeats grad).drop 1))
  else
    .ok ((repeatDiffRows axis repeats grad).getD 0 default)

/-- Reference for claim C4, built from the spec's words (section 4.5):
partition the upstream gradient along `axis` into consecutive blocks of
`repeats` adjacent slices, sum each block down to one slice, and lay the
summed slices back along `axis` in original order — written as the
row-major closed form of that description: the output element with outer
index `o`, axis index `i` and inner index `t` is the sum over `m < repeats`
of the gradient elements at axis index `i * repeats + m`. -/
def repeatGradRefData (grad : Tensor) (axis repeats : Nat) : List ℚ :=
  let ext := grad.shape.getD axis 0
  let q := ext / repeats
  let inner := innerProd grad.shape axis
  (List.range (outerProd grad.shape axis * q * inner)).map fun j =>
    ∑ m ∈ Finset.range repeats,
      grad.data.getD
        ((j / (q * inner) * ext + j % (q * inner) / inner * repeats + m) *
            inner + j % inner) 0

/-! ## Clamp gradient kernel (src/op_clamp.go) -/

/-- Modelled from the spec: `top.ClampB` is an external dependency
(`github.com/samuelfneumann/top`) whose source is not part of this
repository; the spec (section 4.3) specifies the hard clamp gradient mask
it produces: 1 where `min ≤ v ≤ max`, else 0, elementwise. -/
def clampBData (lo hi : ℚ) (d : List ℚ) : List ℚ :=
  d.map fun v => if lo ≤ v ∧ v ≤ hi then 1 else 0

/-- `clampDiffOp.Do` (src/op_clamp.go): `inputs[0]` is the primal input
`x`, `inputs[1]` the upstream gradient `dzdy`.  The mask `dydx` is
`top.ClampB(x, min, max)` for the hard gradient, or a ones tensor of `x`'s
shape for the straight-through policy; the result is
`tensor.Mul(dzdy, dydx)`. -/
def clampDiffDo (c : clampOp) (x dzdy : Tensor) : Except String Tensor :=
  if x.size = 0 then
    .error ("do: tensor must have more than 1 row per dimension but " ++
      "got shape " ++ toString x.shape)
  else
    let dydx : Tensor :=
      if ¬c.passGradient then ⟨x.shape, clampBData c.min c.max x.data⟩
      else ⟨x.shape, List.replicate x.shape.prod 1⟩
    .ok ⟨dzdy.shape, List.zipWith (fun a b => a * b) dzdy.data dydx.data⟩

/-! ## Normal sampling operator (src/distribution/op_normal_sample.go) -/

/-- A runtime value as the sampling operator receives it: dtype, shape and
flat row-major data (`G.Value` backed by a `tensor.Tensor`). -/
structure TVal where
  dtype : Dtype
  shape : List Nat
  data : List ℚ
deriving DecidableEq, Repr

/-- `tensor.Tensor.Size`: total number of elements. -/
def TVal.size (v : TVal) : Nat := v.shape.prod

/-- `normalSampleOp` (src/distribution/op_normal_sample.go): declared
dtype, declared (mean/stddev) shape and sample count.  The seeded random
source is external state abstracted away here. -/
structure normalSampleOp where
  dt : Dtype
  shape : List Nat
  numSamples : Nat
deriving DecidableEq, Repr

/-- `normalSampleOp.InferShape` (src/distribution/op_normal_sample.go):
`append([]int{n.numSamples}, n.shape...)`. -/
def normalSampleOp.inferShape (n : normalSampleOp) : List Nat :=
  n.numSamples :: n.shape

/-- `normalSampleOp.checkInputs` (src/distribution/op_normal_sample.go):
size, shape and dtype checks for the mean, then for the stddev, in source
order (the nil checks have no counterpart in the model). -/
def normalSampleOp.checkInputs (n : normalSampleOp) (mean stddev : TVal) :
    Except String Unit :=
  if mean.size = 0 then
    .error "cannot sample from empty mean tensor"
  else if ¬(mean.shape = n.shape) then
    .error ("expected mean to have shape " ++ toString n.shape ++
      " but got " ++ toString mean.shape)
  else if ¬(mean.dtype = n.dt) then
    .error "expected mean to have dtype"
  else if stddev.size = 0 then
    .error "cannot sample from empty stddev tensor"
  else if ¬(stddev.shape = n.shape) then
    .error ("expected stddev to have shape " ++ toString n.shape ++
      " but got " ++ toString stddev.shape)
  else if ¬(stddev.dtype = n.dt) then
    .error "expected stddev to have dtype"
  else
    .ok ()

/-- `normalSampleOp.Do` (src/distribution/op_normal_sample.go): validates
the inputs, allocates the output as
`tensor.NewDense(n.dt, append([]int{n.numSamples}, n.shape...))` and fills
every cell with one draw from the gonum normal sampler.  The externally
seeded randomness is abstracted by the oracle `rng`, whose `k`-th value is
the draw written at flat position `k` of the row-major buffer. -/
def normalSampleOp.Do (n : normalSampleOp) (mean stddev : TVal)
    (rng : Nat → ℚ) : Except String TVal :=
  match n.checkInputs mean stddev with
  | .error e => .error ("do: " ++ e)
  | .ok _ =>
      .ok ⟨n.dt, n.numSamples :: n.shape,
        (List.range ((n.numSamples :: n.shape).prod)).map rng⟩

/-! ## Normal entropy (src/distribution/normal.go) -/

/-- `Normal.Entropy` (src/distribution/normal.go): the elementwise graph
computation `Pow(stddev, two)`, `HadamardProd(·, twoPi)`, `Log`,
`HadamardProd(half, ·)`, `Add(·, half)` applied to the stddev node, where
`two = 2`, `twoPi = π * 2` and `half = 0.5`.  The method takes no query
node, so the result depends on the declared stddev only.  Go float64
arithmetic is idealized over `ℝ`. -/
noncomputable def normalEntropy (stddev : List ℝ) : List ℝ :=
  let e1 := stddev.map (fun s => s ^ 2)
  let e2 := e1.map (fun v => v * (Real.pi * 2))
  let e3 := e2.map Real.log
  let e4 := e3.map (fun v => 0.5 * v)
  e4.map (fun v => v + 0.5)

end Gop

namespace Gop

/-! # Helper lemmas -/

/-- Bounds on the entropy value at `σ = 3/2`:
`0.5 · ln(2π · 2.25) + 0.5` lies strictly between 1.8243 and 1.8245. -/
theorem entropy_bounds_at_three_halves :
    (1.8243 : ℝ) < 0.5 * Real.log ((3 / 2 : ℝ) ^ 2 * (Real.pi * 2)) + 0.5 ∧
    0.5 * Real.log ((3 / 2 : ℝ) ^ 2 * (Real.pi * 2)) + 0.5 < 1.8245 := by
  have hπl : (3.141592 : ℝ) < Real.pi := Real.pi_gt_d6
  have hπu : Real.pi < 3.141593 := Real.pi_lt_d6
  have hAeq : ((3 / 2 : ℝ) ^ 2 * (Real.pi * 2)) = 9 / 2 * Real.pi := by ring
  have hApos : (0 : ℝ) < (3 / 2 : ℝ) ^ 2 * (Real.pi * 2) := by
    rw [hAeq]; positivity
  have hAlo : (14.137164 : ℝ) < (3 / 2 : ℝ) ^ 2 * (Real.pi * 2) := by
    rw [hAeq]; nlinarith
  have hAhi : ((3 / 2 : ℝ) ^ 2 * (Real.pi * 2)) < 14.1371685 := by
    rw [hAeq]; nlinarith
  -- upper bound on exp (0.66215) through the degree-8 Taylor polynomial
  have hexpB : Real.exp 0.66215 ≤ 1.93897 := by
    have h := @Real.exp_bound' 0.66215 (by norm_num) (by norm_num) 8
      (by norm_num)
    refine h.trans ?_
    simp only [Finset.sum_range_succ, Finset.sum_range_zero, Nat.factorial]
    norm_num
  -- hence exp (2.6486) = exp (0.66215) ^ 4 < 14.137164 < A
  have hexp4 : Real.exp 2.6486 < (3 / 2 : ℝ) ^ 2 * (Real.pi * 2) := by
    have h1 : (2.6486 : ℝ) = (4 : ℕ) * 0.66215 := by norm_num
    have h2 : Real.exp 2.6486 = Real.exp 0.66215 ^ 4 := by
      rw [h1, Real.exp_nat_mul]
    have h3 : Real.exp 0.66215 ^ 4 ≤ (1.93897 : ℝ) ^ 4 :=
      pow_le_pow_left₀ (Real.exp_nonneg _) hexpB 4
    have h4 : (1.93897 : ℝ) ^ 4 < 14.137164 := by norm_num
    calc Real.exp 2.6486 = Real.exp 0.66215 ^ 4 := h2
      _ ≤ (1.93897 : ℝ) ^ 4 := h3
      _ < 14.137164 := h4
      _ < (3 / 2 : ℝ) ^ 2 * (Real.pi * 2) := hAlo
  have hloglo : (2.6486 : ℝ) < Real.log ((3 / 2 : ℝ) ^ 2 * (Real.pi * 2)) :=
    (Real.lt_log_iff_exp_lt hApos).2 hexp4
  -- lower bound on exp (2.649) through the degree-11 Taylor polynomial
  have hexplo : (14.1371685 : ℝ) < Real.exp 2.649 := by
    have h := Real.sum_le_exp_of_nonneg (by norm_num : (0 : ℝ) ≤ 2.649) 12
    refine lt_of_lt_of_le ?_ h
    simp only [Finset.sum_range_succ, Finset.sum_range_zero, Nat.factorial]
    norm_num
  have hloghi : Real.log ((3 / 2 : ℝ) ^ 2 * (Real.pi * 2)) < 2.649 :=
    (Real.log_lt_iff_lt_exp hApos).2 (hAhi.trans hexplo)
  constructor <;> linarith

/-- Evaluating a range-map at an in-range index. -/
theorem getD_map_range {α : Type} (f : Nat → α) (d : α) {N j : Nat}
    (h : j < N) : ((List.range N).map f).getD j d = f j := by
  rw [List.getD_eq_getElem?_getD, List.getElem?_map, List.getElem?_range h]
  rfl

/-- A list is the range-map of its own `getD`. -/
theorem map_getD_range {α : Type} (l : List α) (d : α) :
    (List.range l.length).map (fun j => l.getD j d) = l := by
  apply List.ext_getElem
  · simp
  · intro i h1 h2
    simp [List.getD_eq_getElem?_getD, List.getElem?_eq_getElem h2]

/-- Row-major product decomposition of a shape at an in-range axis. -/
theorem prod_split :
    ∀ (s : List Nat) (a : Nat), a < s.length →
      s.prod = outerProd s a * s.getD a 0 * innerProd s a := by
  intro s
  induction s with
  | nil => intro a h; simp at h
  | cons dd rest ih =>
      intro a h
      cases a with
      | zero => simp [outerProd, innerProd]
      | succ a =>
          have hr := ih a (by simpa using h)
          simp only [outerProd, innerProd, List.take_succ_cons,
            List.drop_succ_cons, List.prod_cons, List.getD_cons_succ] at hr ⊢
          rw [hr]; ring

theorem take_set (v : Nat) :
    ∀ (s : List Nat) (a : Nat), (s.set a v).take a = s.take a := by
  intro s
  induction s with
  | nil => intro a; simp
  | cons dd rest ih =>
      intro a
      cases a with
      | zero => simp
      | succ a => simp [List.set_cons_succ, ih]

theorem drop_set (v : Nat) :
    ∀ (s : List Nat) (a : Nat), (s.set a v).drop (a + 1) = s.drop (a + 1) := by
  intro s
  induction s with
  | nil => intro a; simp
  | cons dd rest ih =>
      intro a
      cases a with
      | zero => simp
      | succ a => simp [List.set_cons_succ, ih]

theorem getD_set_self (v : Nat) :
    ∀ (s : List Nat) (a : Nat), a < s.length →
      (s.set a v).getD a 0 = v := by
  intro s
  induction s with
  | nil => intro a h; simp at h
  | cons dd rest ih =>
      intro a h
      cases a with
      | zero => simp
      | succ a => simpa using ih a (by simpa using h)

theorem eraseIdx_set (v : Nat) :
    ∀ (s : List Nat) (a : Nat), (s.set a v).eraseIdx a = s.eraseIdx a := by
  intro s
  induction s with
  | nil => intro a; simp
  | cons dd rest ih =>
      intro a
      cases a with
      | zero => simp [List.eraseIdx]
      | succ a => simp [List.set_cons_succ, List.eraseIdx, ih]

theorem eraseIdx_take :
    ∀ (s : List Nat) (a : Nat), (s.eraseIdx a).take a = s.take a := by
  intro s
  induction s with
  | nil => intro a; simp
  | cons dd rest ih =>
      intro a
      cases a with
      | zero => simp
      | succ a => simp [List.eraseIdx, ih]

theorem eraseIdx_drop :
    ∀ (s : List Nat) (a : Nat), (s.eraseIdx a).drop a = s.drop (a + 1) := by
  intro s
  induction s with
  | nil => intro a; simp
  | cons dd rest ih =>
      intro a
      cases a with
      | zero => simp [List.eraseIdx]
      | succ a => simp [List.eraseIdx, ih]

theorem insertIdx_eraseIdx_set (v : Nat) :
    ∀ (s : List Nat) (a : Nat), a < s.length →
      (s.eraseIdx a).insertIdx a v = s.set a v := by
  intro s
  induction s with
  | nil => intro a h; simp at h
  | cons dd rest ih =>
      intro a h
      cases a with
      | zero => simp [List.eraseIdx]
      | succ a =>
          have := ih a (by simpa using h)
          simp [List.eraseIdx, List.insertIdx_succ_cons, this]

/-- Flat row-major index of an in-range (outer, axis, inner) coordinate is
itself in range. -/
theorem triple_lt {outer w inner o m t : Nat} (ho : o < outer)
    (hm : m < w) (ht : t < inner) :
    (o * w + m) * inner + t < outer * w * inner := by
  have h1 : (o * w + m) * inner + t < (o * w + m + 1) * inner := by
    have := Nat.succ_le_of_lt ht
    calc (o * w + m) * inner + t < (o * w + m) * inner + inner := by omega
      _ = (o * w + m + 1) * inner := by ring
  have h2 : o * w + m + 1 ≤ outer * w := by
    have h3 : o + 1 ≤ outer := ho
    calc o * w + m + 1 ≤ o * w + w := by omega
      _ = (o + 1) * w := by ring
      _ ≤ outer * w := Nat.mul_le_mul_right w h3
  calc (o * w + m) * inner + t < (o * w + m + 1) * inner := h1
    _ ≤ outer * w * inner := Nat.mul_le_mul_right inner h2

/-- Two-factor version of `triple_lt`. -/
theorem pair_lt {outer inner o t : Nat} (ho : o < outer) (ht : t < inner) :
    o * inner + t < outer * inner := by
  have := triple_lt (w := 1) (m := 0) ho Nat.one_pos ht
  simpa using this

/-- Division and remainder of a composed row-major index. -/
theorem pair_decode {inner o t : Nat} (ht : t < inner) :
    (o * inner + t) / inner = o ∧ (o * inner + t) % inner = t := by
  have hpos : 0 < inner := by omega
  constructor
  · rw [Nat.mul_comm o inner, Nat.mul_add_div hpos, Nat.div_eq_of_lt ht,
      Nat.add_zero]
  · rw [Nat.mul_add_mod' o inner t, Nat.mod_eq_of_lt ht]

/-- Decoding the flat index built from coordinates (o, m, t). -/
theorem decomp_encode {w inner o m t : Nat} (hm : m < w) (ht : t < inner) :
    ((o * w + m) * inner + t) / (w * inner) = o ∧
    ((o * w + m) * inner + t) % (w * inner) = m * inner + t ∧
    ((o * w + m) * inner + t) % inner = t := by
  have hpos : 0 < inner := by omega
  have hwpos : 0 < w := by omega
  have hwi : 0 < w * inner := Nat.mul_pos hwpos hpos
  have hkey : (o * w + m) * inner + t = w * inner * o + (m * inner + t) := by
    ring
  have hlt : m * inner + t < w * inner := by
    calc m * inner + t < m * inner + inner := by omega
      _ = (m + 1) * inner := by ring
      _ ≤ w * inner := Nat.mul_le_mul_right inner (by omega)
  refine ⟨?_, ?_, ?_⟩
  · rw [hkey, Nat.mul_add_div hwi, Nat.div_eq_of_lt hlt, Nat.add_zero]
  · rw [hkey, Nat.mul_comm (w * inner) o,
      Nat.mul_add_mod' o (w * inner) (m * inner + t), Nat.mod_eq_of_lt hlt]
  · rw [Nat.mul_add_mod' (o * w + m) inner t, Nat.mod_eq_of_lt ht]

/-- Encoding a flat index below `outer * w * inner` into coordinates. -/
theorem range_decomp {outer w inner j : Nat} (hj : j < outer * w * inner) :
    j / (w * inner) < outer ∧ j % (w * inner) / inner < w ∧
    j % inner < inner ∧
    (j / (w * inner) * w + j % (w * inner) / inner) * inner + j % inner
      = j := by
  have hip : 0 < inner := by
    rcases Nat.eq_zero_or_pos inner with h | h
    · subst h; simp at hj
    · exact h
  have hwp : 0 < w := by
    rcases Nat.eq_zero_or_pos w with h | h
    · subst h; simp at hj
    · exact h
  have hwi : 0 < w * inner := Nat.mul_pos hwp hip
  have h1 : j / (w * inner) < outer := by
    rw [Nat.div_lt_iff_lt_mul hwi]
    calc j < outer * w * inner := hj
      _ = outer * (w * inner) := by ring
  have hmod : j % (w * inner) < w * inner := Nat.mod_lt _ hwi
  have h2 : j % (w * inner) / inner < w :=
    (Nat.div_lt_iff_lt_mul hip).2 hmod
  have h3 : j % inner < inner := Nat.mod_lt _ hip
  have hmm : j % (w * inner) % inner = j % inner :=
    Nat.mod_mod_of_dvd j ⟨w, by ring⟩
  refine ⟨h1, h2, h3, ?_⟩
  have e1 : (j / (w * inner) * w + j % (w * inner) / inner) * inner +
      j % inner =
      w * inner * (j / (w * inner)) +
        (inner * (j % (w * inner) / inner) + j % (w * inner) % inner) := by
    rw [← hmm]; ring
  rw [e1, Nat.div_add_mod, Nat.div_add_mod]

/-- Reassembling a non-empty list from its head (as `getD 0`) and tail. -/
theorem cons_getD_zero_drop {α : Type} (l : List α) (d : α)
    (h : l ≠ []) : l.getD 0 d :: l.drop 1 = l := by
  cases l with
  | nil => exact absurd rfl h
  | cons a t => rfl

/-- The shape `SqueezeAllBut` produces: every extent-1 entry removed
except the one at position `axis` (whose position shifts down by the
number of removed entries before it). -/
def keepShape : List Nat → Nat → List Nat
  | [], _ => []
  | dd :: rest, 0 => dd :: rest.filter (fun v => v != 1)
  | dd :: rest, a + 1 =>
      if dd = 1 then keepShape rest a else dd :: keepShape rest a

theorem filter_ne_one_prod :
    ∀ l : List Nat, (l.filter (fun v => v != 1)).prod = l.prod := by
  intro l
  induction l with
  | nil => rfl
  | cons dd rest ih =>
      by_cases h : dd = 1
      · subst h; simpa using ih
      · rw [List.filter_cons_of_pos (by simpa using h), List.prod_cons,
          List.prod_cons, ih]

theorem countOnesBefore_zero (s : List Nat) : countOnesBefore s 0 = 0 := by
  unfold countOnesBefore; simp

theorem countOnesBefore_cons_succ (dd : Nat) (rest : List Nat) (a : Nat) :
    countOnesBefore (dd :: rest) (a + 1) =
      (if dd = 1 then 1 else 0) + countOnesBefore rest a := by
  unfold countOnesBefore
  rw [List.take_succ_cons, List.filter_cons]
  by_cases h : dd = 1 <;> simp [h] <;> omega

theorem countOnesBefore_le (s : List Nat) (a : Nat) :
    countOnesBefore s a ≤ a := by
  unfold countOnesBefore
  calc ((s.take a).filter (fun v => v == 1)).length ≤ (s.take a).length :=
        List.length_filter_le _ _
    _ ≤ a := by rw [List.length_take]; omega

/-- The three quantities the reduction engine reads off the squeezed
shape — outer product, axis extent, inner product at the renumbered axis —
agree with those of the original shape at the original axis. -/
theorem keepShape_props :
    ∀ (s : List Nat) (a : Nat), a < s.length →
      ((keepShape s a).take (a - countOnesBefore s a)).prod =
          (s.take a).prod ∧
      (keepShape s a).getD (a - countOnesBefore s a) 0 = s.getD a 0 ∧
      ((keepShape s a).drop (a - countOnesBefore s a + 1)).prod =
          (s.drop (a + 1)).prod := by
  intro s
  induction s with
  | nil => intro a h; simp at h
  | cons dd rest ih =>
      intro a h
      cases a with
      | zero =>
          rw [countOnesBefore_zero]
          refine ⟨rfl, rfl, ?_⟩
          show (rest.filter (fun v => v != 1)).prod = rest.prod
          exact filter_ne_one_prod rest
      | succ a =>
          have ha : a < rest.length := by simpa using h
          obtain ⟨ih1, ih2, ih3⟩ := ih a ha
          have hcle : countOnesBefore rest a ≤ a := countOnesBefore_le _ _
          by_cases hdd : dd = 1
          · have hc : countOnesBefore (dd :: rest) (a + 1) =
                1 + countOnesBefore rest a := by
              rw [countOnesBefore_cons_succ, if_pos hdd]
            have hk : keepShape (dd :: rest) (a + 1) = keepShape rest a := by
              show (if dd = 1 then keepShape rest a
                else dd :: keepShape rest a) = _
              rw [if_pos hdd]
            have hidx : a + 1 - countOnesBefore (dd :: rest) (a + 1) =
                a - countOnesBefore rest a := by rw [hc]; omega
            rw [hk, hidx]
            refine ⟨?_, ih2, ih3⟩
            rw [ih1, List.take_succ_cons, List.prod_cons, hdd, one_mul]
          · have hc : countOnesBefore (dd :: rest) (a + 1) =
                countOnesBefore rest a := by
              rw [countOnesBefore_cons_succ, if_neg hdd, Nat.zero_add]
            have hk : keepShape (dd :: rest) (a + 1) =
                dd :: keepShape rest a := by
              show (if dd = 1 then keepShape rest a
                else dd :: keepShape rest a) = _
              rw [if_neg hdd]
            have hidx : a + 1 - countOnesBefore (dd :: rest) (a + 1) =
                (a - countOnesBefore rest a) + 1 := by rw [hc]; omega
            rw [hk, hidx]
            refine ⟨?_, ?_, ?_⟩
            · rw [List.take_succ_cons, List.take_succ_cons, List.prod_cons,
                List.prod_cons, ih1]
            · simpa using ih2
            · show ((keepShape rest a).drop
                (a - countOnesBefore rest a + 1)).prod = _
              rw [ih3]; rfl

theorem getD_append_cons (pre : List Nat) (dd : Nat) (rest : List Nat) :
    (pre ++ dd :: rest).getD pre.length 0 = dd := by
  rw [List.getD_eq_getElem?_getD,
    List.getElem?_append_right (le_refl pre.length)]
  simp

theorem squeeze_append_one (d : List ℚ) (pre rest : List Nat) :
    squeeze ⟨pre ++ 1 :: rest, d⟩ pre.length = ⟨pre ++ rest, d⟩ := by
  unfold squeeze
  rw [if_neg (by rw [getD_append_cons]; simp)]
  have h1 : (pre ++ 1 :: rest).take pre.length = pre := by
    rw [List.take_append_eq_append_take, List.take_length]
    simp
  have h2 : (pre ++ 1 :: rest).drop (pre.length + 1) = rest := by
    rw [List.drop_append_eq_append_drop]
    have e1 : pre.drop (pre.length + 1) = [] :=
      List.drop_eq_nil_of_le (by omega)
    have e2 : pre.length + 1 - pre.length = 1 := by omega
    rw [e1, e2, List.nil_append]
    rfl
  rw [h1, h2]

/-- The squeeze loop once the scan index has passed the kept axis: it
filters every remaining extent-1 entry out of the unscanned suffix. -/
theorem sabLoop_after (d : List ℚ) :
    ∀ (suf : List Nat) (fuel : Nat), suf.length ≤ fuel →
      ∀ (pre : List Nat) (axis : Nat), axis < pre.length → suf ≠ [] →
        sabLoop fuel ⟨pre ++ suf, d⟩ axis pre.length =
          ⟨pre ++ suf.filter (fun v => v != 1), d⟩ := by
  intro suf
  induction suf with
  | nil => intro fuel _ pre axis _ hne; exact absurd rfl hne
  | cons dd rest ih =>
      intro fuel hfuel pre axis haxis _
      cases fuel with
      | zero => simp at hfuel
      | succ fuel =>
          have hfuel' : rest.length ≤ fuel := by simpa using hfuel
          have hdim : pre.length ≠ axis := by omega
          show (if (pre ++ dd :: rest).getD pre.length 0 = 1 ∧
              pre.length ≠ axis then _ else _) = _
          rw [getD_append_cons]
          by_cases hdd : dd = 1
          · rw [if_pos ⟨hdd, hdim⟩]
            subst hdd
            dsimp only
            rw [squeeze_append_one]
            cases rest with
            | nil =>
                have hc : (Tensor.mk (pre ++ ([] : List Nat)) d).dims ≤
                    pre.length := by simp [Tensor.dims]
                rw [if_pos hc]
                simp
            | cons d2 r2 =>
                have hc : ¬((Tensor.mk (pre ++ d2 :: r2) d).dims ≤
                    pre.length) := by simp [Tensor.dims]
                rw [if_neg hc, if_neg (by omega : ¬(pre.length < axis))]
                rw [ih fuel hfuel' pre axis haxis (by simp)]
                simp
          · rw [if_neg (by tauto)]
            cases rest with
            | nil =>
                have hc : (Tensor.mk (pre ++ [dd]) d).dims ≤
                    pre.length + 1 := by simp [Tensor.dims]
                rw [if_pos hc]
                simp [List.filter_cons, hdd]
            | cons d2 r2 =>
                have hc : ¬((Tensor.mk (pre ++ dd :: d2 :: r2) d).dims ≤
                    pre.length + 1) := by simp [Tensor.dims]
                rw [if_neg hc]
                have heq : pre ++ dd :: d2 :: r2 =
                    (pre ++ [dd]) ++ d2 :: r2 := by simp
                have hlen : pre.length + 1 = (pre ++ [dd]).length := by simp
                rw [heq, hlen,
                  ih fuel (by simpa using hfuel') (pre ++ [dd]) axis
                    (by simp; omega) (by simp)]
                simp [List.filter_cons, hdd]

/-- The squeeze loop with the kept axis still ahead: it turns the
unscanned suffix into `keepShape suf a`. -/
theorem sabLoop_at (d : List ℚ) :
    ∀ (suf : List Nat) (fuel : Nat), suf.length ≤ fuel →
      ∀ (pre : List Nat) (a : Nat), a < suf.length →
        sabLoop fuel ⟨pre ++ suf, d⟩ (pre.length + a) pre.length =
          ⟨pre ++ keepShape suf a, d⟩ := by
  intro suf
  induction suf with
  | nil => intro fuel _ pre a ha; simp at ha
  | cons dd rest ih =>
      intro fuel hfuel pre a ha
      cases fuel with
      | zero => simp at hfuel
      | succ fuel =>
          have hfuel' : rest.length ≤ fuel := by simpa using hfuel
          show (if (pre ++ dd :: rest).getD pre.length 0 = 1 ∧
              pre.length ≠ pre.length + a then _ else _) = _
          rw [getD_append_cons]
          cases a with
          | zero =>
              rw [if_neg (fun hc => hc.2 (by omega))]
              cases rest with
              | nil =>
                  have hc : (Tensor.mk (pre ++ [dd]) d).dims ≤
                      pre.length + 1 := by simp [Tensor.dims]
                  rw [if_pos hc]
                  simp [keepShape]
              | cons d2 r2 =>
                  have hc : ¬((Tensor.mk (pre ++ dd :: d2 :: r2) d).dims ≤
                      pre.length + 1) := by simp [Tensor.dims]
                  rw [if_neg hc]
                  have heq : pre ++ dd :: d2 :: r2 =
                      (pre ++ [dd]) ++ d2 :: r2 := by simp
                  have hlen : pre.length + 1 = (pre ++ [dd]).length := by
                    simp
                  rw [heq, hlen, show pre.length + 0 = pre.length from rfl,
                    sabLoop_after d (d2 :: r2) fuel (by simpa using hfuel')
                      (pre ++ [dd]) pre.length (by simp) (by simp)]
                  simp [keepShape]
          | succ a =>
              have ha' : a < rest.length := by simpa using ha
              have hrne : rest ≠ [] := by
                intro h; rw [h] at ha'; simp at ha'
              by_cases hdd : dd = 1
              · rw [if_pos ⟨hdd, by omega⟩]
                subst hdd
                dsimp only
                rw [squeeze_append_one]
                have hax : pre.length < pre.length + (a + 1) := by omega
                rw [if_pos hax,
                  show pre.length + (a + 1) - 1 = pre.length + a from by
                    omega]
                have hc : ¬((Tensor.mk (pre ++ rest) d).dims ≤
                    pre.length) := by
                  simp only [Tensor.dims, List.length_append, not_le]
                  omega
                rw [if_neg hc]
                rw [ih fuel hfuel' pre a ha']
                simp [keepShape]
              · rw [if_neg (fun hc => hdd hc.1)]
                have hc : ¬((Tensor.mk (pre ++ dd :: rest) d).dims ≤
                    pre.length + 1) := by
                  simp only [Tensor.dims, List.length_append,
                    List.length_cons, not_le]
                  omega
                rw [if_neg hc]
                have heq : pre ++ dd :: rest = (pre ++ [dd]) ++ rest := by
                  simp
                have hlen : pre.length + 1 = (pre ++ [dd]).length := by simp
                have haxis : pre.length + (a + 1) =
                    (pre ++ [dd]).length + a := by simp; omega
                rw [heq, hlen, haxis,
                  ih fuel (by simpa using hfuel') (pre ++ [dd]) a ha']
                simp [keepShape, hdd]

/-- `SqueezeAllBut` removes every extent-1 axis except `axis` and keeps
the data. -/
theorem SqueezeAllBut_spec (s : List Nat) (d : List ℚ) (axis : Nat)
    (h : axis < s.length) :
    SqueezeAllBut ⟨s, d⟩ axis = ⟨keepShape s axis, d⟩ := by
  have hres := sabLoop_at d s s.length (le_refl _) [] axis (by simpa using h)
  simp only [List.nil_append, List.length_nil, Nat.zero_add] at hres
  show sabLoop (Tensor.mk s d).dims ⟨s, d⟩ axis 0 = _
  exact hres

/-- `sliceData` depends only on the outer product, the axis extent, the
inner product and the data — all preserved by squeezing other axes. -/
theorem sliceData_congr (d : List ℚ) (s s2 : List Nat) (a a2 : Nat)
    (h1 : outerProd s2 a2 = outerProd s a)
    (h2 : innerProd s2 a2 = innerProd s a)
    (h3 : s2.getD a2 0 = s.getD a 0) (i : Nat) :
    sliceData ⟨s2, d⟩ a2 i = sliceData ⟨s, d⟩ a i := by
  simp only [sliceData]
  rw [h1, h2, h3]

/-- The accumulation loop of `ReduceAlong`, on the elementwise combine of
equal-shaped slices, is the left fold over the row indices in increasing
order. -/
theorem reduceRows_elemwise (g : ℚ → ℚ → ℚ) (Ks : List Nat) (dK : List ℚ)
    (A : Nat) :
    ∀ (k i : Nat) (rd : List ℚ),
      reduceRows (elemwise g) ⟨Ks, dK⟩ A k ⟨Ks.eraseIdx A, rd⟩ i =
        .ok ⟨Ks.eraseIdx A, (List.range' i k).foldl
          (fun acc j => List.zipWith g acc (sliceData ⟨Ks, dK⟩ A j)) rd⟩ := by
  intro k
  induction k with
  | zero =>
      intro i rd
      simp [reduceRows]
  | succ k ih =>
      intro i rd
      have hf : elemwise g ⟨Ks.eraseIdx A, rd⟩ (sliceIdx ⟨Ks, dK⟩ A i) =
          .ok ⟨Ks.eraseIdx A,
            List.zipWith g rd (sliceData ⟨Ks, dK⟩ A i)⟩ := by
        simp [elemwise, sliceIdx]
      show (match elemwise g ⟨Ks.eraseIdx A, rd⟩ (sliceIdx ⟨Ks, dK⟩ A i) with
        | .error e =>
            (.error ("reduceAlong: could not compute f along rows: " ++ e) :
              Except String Tensor)
        | .ok row2 => reduceRows (elemwise g) ⟨Ks, dK⟩ A k row2 (i + 1)) = _
      rw [hf]
      show reduceRows (elemwise g) ⟨Ks, dK⟩ A k
        ⟨Ks.eraseIdx A, List.zipWith g rd (sliceData ⟨Ks, dK⟩ A i)⟩ (i + 1) = _
      rw [ih (i + 1) (List.zipWith g rd (sliceData ⟨Ks, dK⟩ A i))]
      rw [List.range'_succ]
      rfl

/-- Multiplying elementwise by a ones tensor on the left is the
identity. -/
theorem zipWith_mul_replicate_one (l : List ℚ) (n : Nat)
    (h : l.length = n) :
    List.zipWith (fun a b => a * b) (List.replicate n 1) l = l := by
  induction l generalizing n with
  | nil => cases h; rfl
  | cons a t ih =>
      cases h
      simp only [List.length_cons, List.replicate_succ, List.zipWith_cons_cons,
        one_mul]
      rw [ih t.length rfl]

end Gop

namespace Gop

/-! # Claim theorems (first group) -/

/-- C1: Normal shape resolution for declared shape `[3]`: a query of shape
`[3]` is non-batched and returned unchanged; a query of shape `[5,3]` is a
batch (leading axis is the batch axis) and returned unchanged; a query of
shape `[5,4]` yields a shape-mismatch error naming the declared shape and
the offending shape. -/
theorem c1_fixShape_shape_resolution :
    fixShape [3] [3] = .ok [3] ∧ isBatch [3] [3] = false ∧
    fixShape [3] [5, 3] = .ok [5, 3] ∧ isBatch [3] [5, 3] = true ∧
    fixShape [3] [5, 4] =
      .error ("expected shape to match distribution shape " ++
        toString ([3] : List Nat) ++
        " at all dimensions except batch (dim 0) but got x shape " ++
        toString ([5, 4] : List Nat)) := by
  refine ⟨?_, ?_, ?_, ?_, ?_⟩ <;> rfl

/-- C7 counterexample: `NewNormal` with float32 mean and stddev of equal
shapes — both of the same floating-point element type — returns an error,
contradicting the claim that construction succeeds for float32. -/
theorem c7_newNormal_float32_rejected :
    Dtype.isFloat .float32 = true ∧
    (NewNormal ⟨[3], .float32⟩ ⟨[3], .float32⟩ 0).isOk = false := by
  constructor <;> rfl

/-- C7 (amended): `NewNormal(mean, stddev, seed)` succeeds exactly when
mean and stddev have equal shapes and the same element type, and that type
is float64; it errors when the shapes differ, the element types differ, or
the element type is not float64 (float32 is rejected as unsupported). -/
theorem c7_newNormal_ok_iff (mean stddev : NodeMeta) (seed : Nat) :
    (NewNormal mean stddev seed).isOk = true ↔
      mean.shape = stddev.shape ∧ mean.dtype = stddev.dtype ∧
        mean.dtype = Dtype.float64 := by
  unfold NewNormal
  split_ifs with h1 h2 h3 h4 <;> simp_all [Except.isOk, Except.toBool]

/-- C9 counterexample: two clamp operators that differ in `min`, `max` and
`passGradient` write identical bytes to the identity hash, so the hash
input does not distinguish operators with different parameters. -/
theorem c9_clampOp_hash_collision :
    clampOp.writeHashInput ⟨0, 1, false⟩ = clampOp.writeHashInput ⟨-5, 5, true⟩ ∧
    (0 : ℚ) ≠ -5 ∧ (1 : ℚ) ≠ 5 ∧ false ≠ true := by
  refine ⟨rfl, by norm_num, by norm_num, by simp⟩

/-- C9 (amended): the clamp operator's identity hash is a stable hash over
its kind tag only: every pair of clamp operator instances — whatever their
`min`, `max`, `passGradient` — writes the same hash input, so instances
with identical parameters hash identically, but memoization cannot
distinguish instances with different parameters. -/
theorem c9_clampOp_hash_kind_only (c₁ c₂ : clampOp) :
    clampOp.writeHashInput c₁ = clampOp.writeHashInput c₂ := rfl

/-- C6: `repeatOp.InferShape` multiplies the extent at `axis` by `repeats`,
leaves every other extent and the number of dimensions unchanged, and does
not mutate the caller's shape (the source clones before mutating). -/
theorem c6_repeatOp_inferShape (axis repeats : Nat) (s : List Nat)
    (h : axis < s.length) :
    (repeatOpInferShape axis repeats s).1.getD axis 0 =
        s.getD axis 0 * repeats ∧
    (∀ i, i ≠ axis →
      (repeatOpInferShape axis repeats s).1.getD i 0 = s.getD i 0) ∧
    (repeatOpInferShape axis repeats s).1.length = s.length ∧
    (repeatOpInferShape axis repeats s).2 = s := by
  refine ⟨?_, ?_, ?_, rfl⟩
  · simp [repeatOpInferShape, List.getD_eq_getElem?_getD, List.getElem?_set_self' , h]
  · intro i hi
    simp [repeatOpInferShape, List.getD_eq_getElem?_getD, List.getElem?_set_ne hi.symm]
  · simp [repeatOpInferShape]

/-- C2: for every non-scalar tensor whose extent along the reduction axis
(unchanged by the pre-reduction squeeze of the other axes) is at least 2,
`ReduceAlong` with an elementwise combine `g` computes the strict
left fold of `g` over the slices of `x` along `axis` in increasing index
order: the slice at index 0 is the initial accumulator and
`g(accumulator, slice_i)` is applied for `i = 1 .. extent-1` left to
right (so for non-commutative `g` the result is the sequential left fold,
not a tree combination); `keepdims` only reshapes the result. -/
theorem c2_reduceAlong_left_fold (g : ℚ → ℚ → ℚ) (x : Tensor) (axis : Nat)
    (keepdims : Bool) (hax : axis < x.dims)
    (hext : 2 ≤ x.shape.getD axis 0) :
    (ReduceAlong x axis keepdims (elemwise g)).map Tensor.data =
      .ok ((List.range' 1 (x.shape.getD axis 0 - 1)).foldl
        (fun acc i => List.zipWith g acc (sliceData x axis i))
        (sliceData x axis 0)) := by
  obtain ⟨s, d⟩ := x
  have hax' : axis < s.length := hax
  obtain ⟨hk1, hk2, hk3⟩ := keepShape_props s axis hax'
  have hc1 : ¬((Tensor.mk s d).dims ≤ axis) := by
    simp only [Tensor.dims, not_le]; exact hax'
  have hc2 : ¬((Tensor.mk s d).dims = 0) := by
    simp only [Tensor.dims]; omega
  have hext' : 2 ≤ s.getD axis 0 := hext
  unfold ReduceAlong
  rw [if_neg hc1, if_neg hc2]
  dsimp only
  rw [if_neg (fun hc => by
    have h2 := hc.2
    omega)]
  rw [SqueezeAllBut_spec s d axis hax']
  dsimp only
  rw [hk2]
  rw [if_neg (by omega : ¬(s.getD axis 0 = 1))]
  rw [show sliceIdx ⟨keepShape s axis, d⟩
      (axis - countOnesBefore s axis) 0 =
    (⟨(keepShape s axis).eraseIdx (axis - countOnesBefore s axis),
      sliceData ⟨keepShape s axis, d⟩
        (axis - countOnesBefore s axis) 0⟩ : Tensor) from rfl]
  rw [reduceRows_elemwise g (keepShape s axis) d
    (axis - countOnesBefore s axis) (s.getD axis 0 - 1) 1
    (sliceData ⟨keepShape s axis, d⟩ (axis - countOnesBefore s axis) 0)]
  have hsl : ∀ i : Nat,
      sliceData ⟨keepShape s axis, d⟩ (axis - countOnesBefore s axis) i =
        sliceData ⟨s, d⟩ axis i := by
    intro i
    refine sliceData_congr d s (keepShape s axis) axis
      (axis - countOnesBefore s axis) ?_ ?_ hk2 i
    · exact hk1
    · exact hk3
  simp only [hsl]
  -- the keepdims reshape preserves the data
  have hprod : ((keepShape s axis).eraseIdx
      (axis - countOnesBefore s axis)).prod =
      (s.take axis ++
        (if axis ≠ (Tensor.mk s d).dims - 1 then s.drop (axis + 1)
          else [])).prod := by
    have e1 : ((keepShape s axis).eraseIdx
        (axis - countOnesBefore s axis)).prod =
        (((keepShape s axis).eraseIdx (axis - countOnesBefore s axis)).take
          (axis - countOnesBefore s axis)).prod *
        (((keepShape s axis).eraseIdx (axis - countOnesBefore s axis)).drop
          (axis - countOnesBefore s axis)).prod :=
      (List.prod_take_mul_prod_drop _ _).symm
    rw [e1, eraseIdx_take, eraseIdx_drop, hk1, hk3, List.prod_append]
    by_cases hlast : axis ≠ (Tensor.mk s d).dims - 1
    · rw [if_pos hlast]
    · rw [if_neg hlast]
      simp only [Tensor.dims, ne_eq, not_not] at hlast
      have : axis + 1 = s.length := by omega
      rw [this, List.drop_length]
  cases keepdims with
  | false => rfl
  | true =>
      show Except.map Tensor.data
        (match reshape ⟨(keepShape s axis).eraseIdx
            (axis - countOnesBefore s axis), _⟩
          (s.take axis ++
            (if axis ≠ (Tensor.mk s d).dims - 1 then s.drop (axis + 1)
              else [])) with
        | .error e => .error ("reduceAlong: could not reshape back to " ++
            "original dims: " ++ e)
        | .ok out => .ok out) = _
      rw [show reshape ⟨(keepShape s axis).eraseIdx
            (axis - countOnesBefore s axis),
          (List.range' 1 (s.getD axis 0 - 1)).foldl
            (fun acc i => List.zipWith g acc (sliceData ⟨s, d⟩ axis i))
            (sliceData ⟨s, d⟩ axis 0)⟩
          (s.take axis ++
            (if axis ≠ (Tensor.mk s d).dims - 1 then s.drop (axis + 1)
              else [])) =
        .ok ⟨s.take axis ++
            (if axis ≠ (Tensor.mk s d).dims - 1 then s.drop (axis + 1)
              else []),
          (List.range' 1 (s.getD axis 0 - 1)).foldl
            (fun acc i => List.zipWith g acc (sliceData ⟨s, d⟩ axis i))
            (sliceData ⟨s, d⟩ axis 0)⟩ from by
        unfold reshape
        rw [if_pos hprod]]
      rfl

/-- C2 witness: left fold with subtraction over shape `[3, 1]` along
axis 0: the result is `(10 - 3) - 1 = 6`, the sequential left fold. -/
theorem c2_reduceAlong_left_fold_witness :
    (0 < (Tensor.mk [3, 1] [10, 3, 1]).dims ∧
      2 ≤ (Tensor.mk [3, 1] [10, 3, 1]).shape.getD 0 0) ∧
    (ReduceAlong ⟨[3, 1], [10, 3, 1]⟩ 0 false
        (elemwise (· - ·))).map Tensor.data =
      .ok ((List.range' 1 ((Tensor.mk [3, 1] [10, 3, 1]).shape.getD 0 0 - 1)).foldl
        (fun acc i =>
          List.zipWith (· - ·) acc (sliceData ⟨[3, 1], [10, 3, 1]⟩ 0 i))
        (sliceData ⟨[3, 1], [10, 3, 1]⟩ 0 0)) :=
  ⟨⟨by decide, by decide⟩,
    c2_reduceAlong_left_fold (· - ·) ⟨[3, 1], [10, 3, 1]⟩ 0 false
      (by decide) (by decide)⟩

/-- C4: for every upstream gradient of extent `q * repeats` along `axis`,
the repeat gradient operator block-sums: its output is exactly the
spec-side reference `repeatGradRefData` (consecutive blocks of `repeats`
adjacent slices summed to one slice each, laid back along `axis` in
original order), with the stacked shape `shape[axis] := q` when `q > 1`
and — the edge case — the single summed block returned directly (its axis
collapsed, no stacking step) when `q = 1`; `repeats = 1` returns the
gradient unchanged. -/
theorem c4_repeatDiff_block_sum (axis repeats q : Nat) (x grad : Tensor)
    (hwf : grad.wf) (hsz : grad.size ≠ 0) (hax : axis < grad.dims)
    (hext : grad.shape.getD axis 0 = q * repeats)
    (hr : 1 ≤ repeats) (hq : 1 ≤ q) :
    repeatDiffDo axis repeats x grad =
      .ok ⟨if repeats = 1 then grad.shape
           else if 1 < q then grad.shape.set axis q
           else grad.shape.eraseIdx axis,
           repeatGradRefData grad axis repeats⟩ := by
  obtain ⟨s, d⟩ := grad
  have hax' : axis < s.length := hax
  have hsplit : s.prod = outerProd s axis * s.getD axis 0 * innerProd s axis :=
    prod_split s axis hax'
  have hszs : s.prod ≠ 0 := hsz
  have hop : 0 < outerProd s axis := by
    rcases Nat.eq_zero_or_pos (outerProd s axis) with h | h
    · exact absurd (by rw [hsplit, h]; ring) hszs
    · exact h
  have hip : 0 < innerProd s axis := by
    rcases Nat.eq_zero_or_pos (innerProd s axis) with h | h
    · exact absurd (by rw [hsplit, h]; ring) hszs
    · exact h
  have hrp : 0 < repeats := hr
  have hdivq : s.getD axis 0 / repeats = q := by
    rw [hext, Nat.mul_div_cancel _ hrp]
  have hqidx :
      (repeatDiffInferShape axis repeats s).getD axis 0 = q := by
    unfold repeatDiffInferShape
    rw [getD_set_self _ s axis hax', hdivq]
  have hprodset : ∀ v, (s.set axis v).prod =
      outerProd s axis * v * innerProd s axis := by
    intro v
    have hl : axis < (s.set axis v).length := by
      rw [List.length_set]; exact hax'
    rw [prod_split (s.set axis v) axis hl]
    unfold outerProd innerProd
    rw [take_set, drop_set, getD_set_self v s axis hax']
  -- the `repeats = 1` early return: a clone of the gradient
  by_cases hr1 : repeats = 1
  · subst hr1
    have hqext : s.getD axis 0 = q := by rw [hext, Nat.mul_one]
    have hlen : d.length = outerProd s axis * q * innerProd s axis := by
      have : d.length = s.prod := hwf
      rw [this, hsplit, hqext]
    have href : repeatGradRefData ⟨s, d⟩ axis 1 = d := by
      unfold repeatGradRefData
      simp only [Nat.div_one, mul_one]
      conv_rhs => rw [← map_getD_range d 0]
      rw [show d.length = outerProd s axis * s.getD axis 0 *
        innerProd s axis from by rw [hwf, hsplit]]
      refine List.map_congr_left fun j hj => ?_
      have hj' : j < outerProd s axis * s.getD axis 0 * innerProd s axis :=
        List.mem_range.1 hj
      obtain ⟨h1, h2, h3, h4⟩ := range_decomp hj'
      rw [Finset.sum_range_one, Nat.add_zero, hqext] at *
      rw [show j / (q * innerProd s axis) * q +
        j % (q * innerProd s axis) / innerProd s axis =
        j / (q * innerProd s axis) * q +
        j % (q * innerProd s axis) / innerProd s axis from rfl]
      rw [← hqext] at h4 ⊢
      rw [h4]
    unfold repeatDiffDo
    rw [if_neg hsz, if_neg (not_le.mpr hax), if_pos rfl, if_pos rfl, href]
  -- the `repeats ≥ 2` path
  · have hr2 : 2 ≤ repeats := by omega
    have hslice : ∀ i : Nat,
        sliceRange ⟨s, d⟩ axis (i * repeats) (i * repeats + repeats) =
          sliceRange ⟨s, d⟩ axis (i * repeats) (i * repeats + repeats) :=
      fun _ => rfl
    have hsizeslice : ∀ i : Nat,
        1 < (sliceRange ⟨s, d⟩ axis (i * repeats)
          (i * repeats + repeats)).size := by
      intro i
      show 1 < (s.set axis (i * repeats + repeats - i * repeats)).prod
      rw [Nat.add_sub_cancel_left, hprodset]
      have h1 : 1 * 2 * 1 ≤ outerProd s axis * repeats * innerProd s axis :=
        Nat.mul_le_mul (Nat.mul_le_mul hop hr2) hip
      omega
    have hrows : repeatDiffRows axis repeats ⟨s, d⟩ =
        (List.range q).map fun i =>
          sumAlong (sliceRange ⟨s, d⟩ axis (i * repeats)
            (i * repeats + repeats)) axis := by
      unfold repeatDiffRows
      rw [hqidx]
      exact List.map_congr_left fun i _ => if_pos (hsizeslice i)
    have hrowlen : (repeatDiffRows axis repeats ⟨s, d⟩).length = q := by
      rw [hrows, List.length_map, List.length_range]
    -- each summed row, evaluated pointwise
    have hrowdata : ∀ i : Nat, ∀ o t : Nat, o < outerProd s axis →
        t < innerProd s axis →
        (sumAlong (sliceRange ⟨s, d⟩ axis (i * repeats)
            (i * repeats + repeats)) axis).data.getD
          (o * innerProd s axis + t) 0 =
        ∑ m ∈ Finset.range repeats,
          d.getD ((o * s.getD axis 0 + i * repeats + m) *
            innerProd s axis + t) 0 := by
      intro i o t ho ht
      have hshape : (sliceRange ⟨s, d⟩ axis (i * repeats)
          (i * repeats + repeats)).shape = s.set axis repeats := by
        show s.set axis (i * repeats + repeats - i * repeats) = _
        rw [Nat.add_sub_cancel_left]
      unfold sumAlong
      rw [hshape]
      have houter2 : outerProd (s.set axis repeats) axis = outerProd s axis := by
        unfold outerProd; rw [take_set]
      have hinner2 : innerProd (s.set axis repeats) axis = innerProd s axis := by
        unfold innerProd; rw [drop_set]
      have hext2 : (s.set axis repeats).getD axis 0 = repeats :=
        getD_set_self repeats s axis hax'
      rw [houter2, hinner2, hext2]
      rw [getD_map_range _ _ (pair_lt ho ht)]
      obtain ⟨hdiv, hmod⟩ := pair_decode (o := o) ht
      rw [hdiv, hmod]
      refine Finset.sum_congr rfl fun m hm => ?_
      have hmlt : m < repeats := Finset.mem_range.1 hm
      -- evaluate the slice's gather formula at (o, m, t)
      unfold sliceRange
      simp only [Nat.add_sub_cancel_left]
      rw [getD_map_range _ _ (triple_lt ho hmlt ht)]
      obtain ⟨e1, e2, e3⟩ := decomp_encode (o := o) hmlt ht
      rw [e1, e2, e3, (pair_decode (o := m) ht).1]
    by_cases hq1 : 1 < q
    · -- stacked result
      have hrne : repeatDiffRows axis repeats ⟨s, d⟩ ≠ [] := by
        intro h
        rw [h] at hrowlen
        simp at hrowlen
        omega
      have hhead : (repeatDiffRows axis repeats ⟨s, d⟩).getD 0 default =
          sumAlong (sliceRange ⟨s, d⟩ axis 0 repeats) axis := by
        rw [hrows, getD_map_range _ _ (by omega : 0 < q)]
        simp
      have hheadshape :
          (sumAlong (sliceRange ⟨s, d⟩ axis 0 repeats) axis).shape =
            s.eraseIdx axis := by
        unfold sumAlong
        show ((sliceRange ⟨s, d⟩ axis 0 repeats).shape).eraseIdx axis = _
        show (s.set axis (repeats - 0)).eraseIdx axis = _
        rw [Nat.sub_zero, eraseIdx_set]
      unfold repeatDiffDo
      rw [if_neg hsz, if_neg (not_le.mpr hax), if_neg hr1, if_pos (by
        rw [hqidx]; exact hq1)]
      rw [if_neg hr1, if_pos hq1]
      -- compute the stack
      unfold stack
      rw [hhead, hheadshape]
      have hkq : 1 + ((repeatDiffRows axis repeats ⟨s, d⟩).drop 1).length
          = q := by
        rw [List.length_drop, hrowlen]; omega
      have houtq : ((s.eraseIdx axis).take axis).prod = outerProd s axis := by
        rw [eraseIdx_take]; rfl
      have hinq : ((s.eraseIdx axis).drop axis).prod = innerProd s axis := by
        rw [eraseIdx_drop]; rfl
      rw [hkq, houtq, hinq]
      dsimp only
      rw [insertIdx_eraseIdx_set q s axis hax']
      refine congrArg Except.ok (congrArg (Tensor.mk (s.set axis q)) ?_)
      -- data of the stack equals the reference, pointwise
      unfold repeatGradRefData
      dsimp only
      rw [hdivq]
      refine List.map_congr_left fun j hj => ?_
      have hj' : j < outerProd s axis * q * innerProd s axis :=
        List.mem_range.1 hj
      obtain ⟨h1, h2, h3, h4⟩ := range_decomp hj'
      rw [← hhead, cons_getD_zero_drop _ _ hrne, hrows,
        getD_map_range _ _ h2, hrowdata _ _ _ h1 h3]
    · -- single-block result: the axis is collapsed, no stacking
      have hqe : q = 1 := by omega
      subst hqe
      unfold repeatDiffDo
      rw [if_neg hsz, if_neg (not_le.mpr hax), if_neg hr1, if_neg (by
        rw [hqidx]; omega)]
      rw [if_neg hr1, if_neg (by omega)]
      have hhead : (repeatDiffRows axis repeats ⟨s, d⟩).getD 0 default =
          sumAlong (sliceRange ⟨s, d⟩ axis 0 repeats) axis := by
        rw [hrows, getD_map_range _ _ (by omega : (0:Nat) < 1)]
        simp
      rw [hhead]
      have hheadshape :
          (sumAlong (sliceRange ⟨s, d⟩ axis 0 repeats) axis).shape =
            s.eraseIdx axis := by
        unfold sumAlong
        show ((sliceRange ⟨s, d⟩ axis 0 repeats).shape).eraseIdx axis = _
        show (s.set axis (repeats - 0)).eraseIdx axis = _
        rw [Nat.sub_zero, eraseIdx_set]
      -- data: the single summed block equals the reference
      have hdata : (sumAlong (sliceRange ⟨s, d⟩ axis 0 repeats) axis).data =
          (List.range (outerProd s axis * innerProd s axis)).map fun j =>
            ∑ m ∈ Finset.range repeats,
              d.getD ((j / innerProd s axis * s.getD axis 0 + 0 * repeats
                + m) * innerProd s axis + j % innerProd s axis) 0 := by
        unfold sumAlong
        have hshape : (sliceRange ⟨s, d⟩ axis 0 repeats).shape =
            s.set axis repeats := by
          show s.set axis (repeats - 0) = _
          rw [Nat.sub_zero]
        rw [hshape]
        have houter2 : outerProd (s.set axis repeats) axis =
            outerProd s axis := by unfold outerProd; rw [take_set]
        have hinner2 : innerProd (s.set axis repeats) axis =
            innerProd s axis := by unfold innerProd; rw [drop_set]
        have hext2 : (s.set axis repeats).getD axis 0 = repeats :=
          getD_set_self repeats s axis hax'
        rw [houter2, hinner2, hext2]
        refine List.map_congr_left fun j hj => ?_
        have hj' : j < outerProd s axis * innerProd s axis :=
          List.mem_range.1 hj
        have hjo : j / innerProd s axis < outerProd s axis :=
          (Nat.div_lt_iff_lt_mul hip).2 hj'
        have hjt : j % innerProd s axis < innerProd s axis :=
          Nat.mod_lt _ hip
        refine Finset.sum_congr rfl fun m hm => ?_
        have hmlt : m < repeats := Finset.mem_range.1 hm
        unfold sliceRange
        simp only [Nat.sub_zero]
        rw [getD_map_range _ _ (triple_lt hjo hmlt hjt)]
        obtain ⟨e1, e2, e3⟩ := decomp_encode (o := j / innerProd s axis)
          hmlt hjt
        rw [e1, e2, e3, (pair_decode (o := m) hjt).1]
        simp
      show Except.ok
          (⟨(sumAlong (sliceRange ⟨s, d⟩ axis 0 repeats) axis).shape,
            (sumAlong (sliceRange ⟨s, d⟩ axis 0 repeats) axis).data⟩ :
            Tensor) = _
      rw [hheadshape, hdata]
      refine congrArg Except.ok (congrArg (Tensor.mk (s.eraseIdx axis)) ?_)
      unfold repeatGradRefData
      dsimp only
      rw [hdivq]
      rw [show outerProd s axis * 1 * innerProd s axis =
        outerProd s axis * innerProd s axis by ring]
      refine List.map_congr_left fun j hj => ?_
      have hj' : j < outerProd s axis * innerProd s axis :=
        List.mem_range.1 hj
      have hjt : j % innerProd s axis < innerProd s axis := Nat.mod_lt _ hip
      rw [show (1 : Nat) * innerProd s axis = innerProd s axis from
        one_mul _]
      have hz : j % innerProd s axis / innerProd s axis = 0 :=
        Nat.div_eq_of_lt hjt
      refine Finset.sum_congr rfl fun m hm => ?_
      rw [hz]

/-- C4 witness: a concrete instantiation — gradient of shape `[4, 2]`
(extent 4 = 2 blocks × 2 repeats along axis 0): each consecutive pair of
rows is summed and the result stacked back, giving shape `[2, 2]`. -/
theorem c4_repeatDiff_block_sum_witness :
    ((Tensor.mk [4, 2] [1, 2, 3, 4, 5, 6, 7, 8]).wf ∧
      (Tensor.mk [4, 2] [1, 2, 3, 4, 5, 6, 7, 8]).size ≠ 0 ∧
      0 < (Tensor.mk [4, 2] [1, 2, 3, 4, 5, 6, 7, 8]).dims ∧
      ([4, 2] : List Nat).getD 0 0 = 2 * 2) ∧
    repeatDiffDo 0 2 default ⟨[4, 2], [1, 2, 3, 4, 5, 6, 7, 8]⟩ =
      .ok ⟨if (2 : Nat) = 1 then [4, 2]
           else if 1 < (2 : Nat) then ([4, 2] : List Nat).set 0 2
           else ([4, 2] : List Nat).eraseIdx 0,
           repeatGradRefData ⟨[4, 2], [1, 2, 3, 4, 5, 6, 7, 8]⟩ 0 2⟩ :=
  ⟨⟨by decide, by decide, by decide, by decide⟩,
    c4_repeatDiff_block_sum 0 2 2 default ⟨[4, 2], [1, 2, 3, 4, 5, 6, 7, 8]⟩
      (by decide) (by decide) (by decide) (by decide) (by decide) (by decide)⟩

/-- C8 counterexample: at `σ = 3/2` the entropy the code computes,
`0.5 · ln(2π · 1.5²) + 0.5 ≈ 1.82440`, differs from the claimed value
1.7896 by far more than the claimed 1e-5 tolerance. -/
theorem c8_entropy_not_17896 :
    (1e-5 : ℝ) ≤ |(normalEntropy [3 / 2]).getD 0 0 - 1.7896| := by
  have hv : (normalEntropy [3 / 2]).getD 0 0 =
      0.5 * Real.log ((3 / 2 : ℝ) ^ 2 * (Real.pi * 2)) + 0.5 := by
    simp [normalEntropy]
  have hlo := entropy_bounds_at_three_halves.1
  rw [hv, abs_of_nonneg (by linarith)]
  linarith

/-- C8 (amended): `Entropy` computes exactly `0.5 · ln(2π · σ²) + 0.5` per
declared-shape element, with no dependence on any query node (the method
takes none); at `σ = 1.5` the value is `≈ 1.8244` within 1e-4 (the spec's
`1.7896` is not the value of its own closed form, which evaluates to
`1.82440...`). -/
theorem c8_entropy_closed_form :
    (∀ stddev : List ℝ, normalEntropy stddev =
      stddev.map fun s => 0.5 * Real.log (2 * Real.pi * s ^ 2) + 0.5) ∧
    |(normalEntropy [3 / 2]).getD 0 0 - 1.8244| < 1e-4 := by
  constructor
  · intro stddev
    simp only [normalEntropy, List.map_map]
    refine List.map_congr_left fun s _ => ?_
    have : s ^ 2 * (Real.pi * 2) = 2 * Real.pi * s ^ 2 := by ring
    simp [Function.comp, this]
  · have hv : (normalEntropy [3 / 2]).getD 0 0 =
        0.5 * Real.log ((3 / 2 : ℝ) ^ 2 * (Real.pi * 2)) + 0.5 := by
      simp [normalEntropy]
    have h := entropy_bounds_at_three_halves
    rw [hv, abs_lt]
    constructor <;> linarith [h.1, h.2]

/-- C3 counterexample: for the scalar tensor holding `5` and axis 0,
`ReduceAlong` does not return the input unchanged without error — the
axis bound check (`axis >= x.Dims()`, and a scalar has 0 dimensions) fires
before the scalar shortcut. -/
theorem c3_reduceAlong_scalar_not_unchanged :
    ¬(ReduceAlong ⟨[], [5]⟩ 0 false (elemwise (· + ·)) =
        .ok ⟨[], [5]⟩) := by
  decide

/-- C3 (amended): for every scalar input `x` (0 dimensions) and every
axis, `ReduceAlong(x, axis, keepdims, f)` returns the axis-out-of-range
error rather than `x` unchanged: the check `axis >= x.Dims()` precedes the
scalar shortcut and always fires since a scalar has 0 dimensions. -/
theorem c3_reduceAlong_scalar_errors (x : Tensor) (axis : Nat)
    (keepdims : Bool) (f : Tensor → Tensor → Except String Tensor)
    (h : x.shape = []) :
    ReduceAlong x axis keepdims f =
      .error ("reduceAlong: axis out of range [" ++ toString axis ++
        "] with length " ++ toString (0 : Nat)) := by
  have hd : x.dims = 0 := by simp [Tensor.dims, h]
  unfold ReduceAlong
  simp [hd]

/-- C3 witness: the amended theorem applied to the scalar tensor holding
`5`, axis 0. -/
theorem c3_reduceAlong_scalar_errors_witness :
    (Tensor.mk [] [5]).shape = [] ∧
    ReduceAlong ⟨[], [5]⟩ 0 false (elemwise (· + ·)) =
      .error ("reduceAlong: axis out of range [" ++ toString (0 : Nat) ++
        "] with length " ++ toString (0 : Nat)) :=
  ⟨rfl, c3_reduceAlong_scalar_errors ⟨[], [5]⟩ 0 false (elemwise (· + ·)) rfl⟩

/-- C5: the clamp gradient with a ones upstream gradient is exactly the
indicator of `min ≤ x ≤ max` when `passGradient = false`, and exactly the
ones tensor when `passGradient = true`, elementwise. -/
theorem c5_clamp_gradient_policy (c : clampOp) (x : Tensor) (hwf : x.wf)
    (hx : x.size ≠ 0) :
    (c.passGradient = false →
      clampDiffDo c x ⟨x.shape, List.replicate x.shape.prod 1⟩ =
        .ok ⟨x.shape,
          x.data.map fun v => if c.min ≤ v ∧ v ≤ c.max then 1 else 0⟩) ∧
    (c.passGradient = true →
      clampDiffDo c x ⟨x.shape, List.replicate x.shape.prod 1⟩ =
        .ok ⟨x.shape, List.replicate x.shape.prod 1⟩) := by
  have hlen : x.data.length = x.shape.prod := hwf
  constructor <;> intro hpass <;>
    · unfold clampDiffDo
      rw [if_neg hx]
      simp only [hpass, Bool.not_false, Bool.not_true, Bool.false_eq_true,
        not_false_eq_true, if_true, ite_true, ite_false, if_false,
        Bool.true_eq_false, not_true_eq_false, clampBData]
      rw [zipWith_mul_replicate_one]
      simp [hlen]

/-- C5 witness: both policies at a concrete input (`min = -1`, `max = 1`,
`x = [-2, 0, 5]`): the hard gradient is `[0, 1, 0]`, straight-through is
`[1, 1, 1]`. -/
theorem c5_clamp_gradient_policy_witness :
    ((Tensor.mk [3] [-2, 0, 5]).wf ∧ (Tensor.mk [3] [-2, 0, 5]).size ≠ 0) ∧
    clampDiffDo ⟨-1, 1, false⟩ ⟨[3], [-2, 0, 5]⟩
        ⟨[3], List.replicate 3 1⟩ = .ok ⟨[3], [0, 1, 0]⟩ ∧
    clampDiffDo ⟨-1, 1, true⟩ ⟨[3], [-2, 0, 5]⟩
        ⟨[3], List.replicate 3 1⟩ = .ok ⟨[3], List.replicate 3 1⟩ := by
  refine ⟨⟨by decide, by decide⟩, ?_, ?_⟩
  · have h := (c5_clamp_gradient_policy ⟨-1, 1, false⟩ ⟨[3], [-2, 0, 5]⟩
      (by decide) (by decide)).1 rfl
    rw [show (List.replicate (Tensor.mk [3] [-2, 0, 5]).shape.prod (1 : ℚ)) =
      List.replicate 3 1 by rfl] at h
    rw [h]
    decide
  · have h := (c5_clamp_gradient_policy ⟨-1, 1, true⟩ ⟨[3], [-2, 0, 5]⟩
      (by decide) (by decide)).2 rfl
    rw [show (List.replicate (Tensor.mk [3] [-2, 0, 5]).shape.prod (1 : ℚ)) =
      List.replicate 3 1 by rfl] at h
    rw [h]

/-- C10: for every valid mean/stddev input of the declared shape, the
tensor produced by `normalSampleOp.Do` has shape
`[numSamples] ++ declared shape` — with a matching row-major buffer — and
that shape is exactly what `InferShape` reports. -/
theorem c10_normalSample_shape (n : normalSampleOp) (mean stddev : TVal)
    (rng : Nat → ℚ)
    (hm : mean.shape = n.shape) (hmd : mean.dtype = n.dt)
    (hms : mean.size ≠ 0)
    (hs : stddev.shape = n.shape) (hsd : stddev.dtype = n.dt)
    (hss : stddev.size ≠ 0) :
    (n.Do mean stddev rng).map TVal.shape =
        .ok (n.numSamples :: n.shape) ∧
    (n.Do mean stddev rng).map (fun v => v.data.length) =
        .ok ((n.numSamples :: n.shape).prod) ∧
    n.inferShape = n.numSamples :: n.shape := by
  have hchk : n.checkInputs mean stddev = .ok () := by
    unfold normalSampleOp.checkInputs
    simp [hm, hmd, hs, hsd, hms, hss]
  refine ⟨?_, ?_, rfl⟩ <;>
    simp [normalSampleOp.Do, hchk, Except.map]

/-- C10 witness: a concrete sampling operator (declared shape `[2, 2]`,
3 samples) with matching inputs. -/
theorem c10_normalSample_shape_witness :
    ((TVal.mk .float64 [2, 2] [0, 1, 2, 3]).shape =
        (normalSampleOp.mk .float64 [2, 2] 3).shape ∧
      (TVal.mk .float64 [2, 2] [0, 1, 2, 3]).size ≠ 0) ∧
    ((normalSampleOp.mk .float64 [2, 2] 3).Do
          ⟨.float64, [2, 2], [0, 1, 2, 3]⟩
          ⟨.float64, [2, 2], [1, 1, 1, 1]⟩ (fun k => (k : ℚ))).map
        TVal.shape = .ok [3, 2, 2] ∧
    (normalSampleOp.mk .float64 [2, 2] 3).inferShape = [3, 2, 2] := by
  have h := c10_normalSample_shape ⟨.float64, [2, 2], 3⟩
    ⟨.float64, [2, 2], [0, 1, 2, 3]⟩ ⟨.float64, [2, 2], [1, 1, 1, 1]⟩
    (fun k => (k : ℚ)) rfl rfl (by decide) rfl rfl (by decide)
  exact ⟨⟨rfl, by decide⟩, h.1, h.2.2⟩

/-- C6 witness: a concrete instantiation (shape `[2,3]`, axis 1,
4 repeats). -/
theorem c6_repeatOp_inferShape_witness :
    (1 < ([2, 3] : List Nat).length) ∧
    ((repeatOpInferShape 1 4 [2, 3]).1.getD 1 0 =
        ([2, 3] : List Nat).getD 1 0 * 4 ∧
      (∀ i, i ≠ 1 →
        (repeatOpInferShape 1 4 [2, 3]).1.getD i 0 =
          ([2, 3] : List Nat).getD i 0) ∧
      (repeatOpInferShape 1 4 [2, 3]).1.length =
        ([2, 3] : List Nat).length ∧
      (repeatOpInferShape 1 4 [2, 3]).2 = [2, 3]) :=
  ⟨by decide, c6_repeatOp_inferShape 1 4 [2, 3] (by decide)⟩

end Gop
